import Mathlib

/-!
# Verification of the vprof runner module

A shallow embedding, in Lean 4, of `vprof/runner.py`: the profiler registry,
the configuration validation in `run_profilers`, the ordered execution of the
requested profilers, the result-extraction/sanitization loop in `run`, and the
serialize/compress/send pipeline, together with theorems settling the
specification claims about this module.

Modelling conventions:
* Python dictionaries whose values are JSON-serializable scalars are modelled
  as association lists; the profiler option codes (one-character strings in
  Python) are modelled as `Char`.
* A profiler's `__init__`/`run` pair is external to the module under study, so
  the execution engine is parameterized by an oracle
  `runProf : Char → Except ε Record` giving, for each registry code, either
  the `ResultRecord` its profiler returns or the exception its run raises.
* Raised exceptions are modelled with `Except`; Python truthiness of the
  values involved (`if not result:`) is modelled explicitly.
* The execution engine also returns the list of codes whose profiler was
  actually constructed and run (in order), so that temporal claims ("nothing
  runs before validation") are statable.
-/

namespace VProf

/-- A Python value that can appear in a profiler result record: an integer or
a (unicode) string.  These are the JSON-serializable scalars the claims need;
`deriving DecidableEq` lets concrete runs be checked by `decide`. -/
inductive PyVal where
  | int (n : Int)
  | str (s : String)
deriving DecidableEq, Repr

deriving instance DecidableEq for Except

/-- Python truthiness of a `PyVal` (`bool(0) = bool('') = False`). -/
def PyVal.truthy : PyVal → Bool
  | .int n => n ≠ 0
  | .str s => s ≠ ""

/-- Python truthiness of the `result` local of `run`, which starts out as
`None` (falsy) and afterwards holds a `PyVal`. -/
def pyTruthy : Option PyVal → Bool
  | none => false
  | some v => v.truthy

/-- A profiler result record: a Python dict from field name to value,
modelled as an association list (keys unique in actual dicts; lookup takes
the first binding). -/
abbrev Record := List (String × PyVal)

/-- Subscript lookup `d[k]` on a record, `none` when the key is absent
(in Python, a raised `KeyError`). -/
def Record.get (r : Record) (k : String) : Option PyVal :=
  List.lookup k r

/-- Deletion `del d[k]`: removes the binding(s) of `k` from the record. -/
def Record.del (r : Record) (k : String) : Record :=
  r.filter (fun p => p.1 ≠ k)

/-- The ordered stats mapping built by `run_profilers` (`OrderedDict`):
insertion order is the list order. -/
abbrev RunStats := List (Char × Record)

/-- The option codes of `_PROFILERS`, in the registry's fixed order:
`('m', MemoryProfiler), ('c', FlameGraphProfiler), ('h', CodeHeatmapProfiler),
('p', Profiler)`. -/
def registryCodes : List Char := ['m', 'c', 'h', 'p']

/-- The exceptions `run_profilers` and `run` can raise, with the data each
message carries: `AmbiguousConfigurationError` interpolates the whole
configuration string, `BadOptionError` the unknown option, a profiler's own
exception propagates unchanged (payload type `ε`), and a missing `'result'`
key raises `KeyError('result')`. -/
inductive RunnerError (ε : Type) where
  | ambiguousConfiguration (config : List Char)
  | badOption (option : Char)
  | profilerFailure (e : ε)
  | keyError (k : String)
deriving DecidableEq, Repr

/-- The execution loop of `run_profilers`: iterate the registry-ordered list
of requested codes, run each profiler, store its record under its code.  Also
returns the codes whose profiler was constructed and run, in order; on a
profiler failure the loop stops (the exception propagates) and the remaining
codes are not reached. -/
def runLoop (runProf : Char → Except ε Record) :
    List Char → Except (RunnerError ε) RunStats × List Char
  | [] => (.ok [], [])
  | c :: rest =>
    match runProf c with
    | .error e => (.error (.profilerFailure e), [c])
    | .ok r =>
      ((runLoop runProf rest).1.map (fun l => (c, r) :: l), c :: (runLoop runProf rest).2)

/-- Shallow embedding of `run_profilers(run_object, prof_config)`.

```python
if len(prof_config) > len(set(prof_config)):
    raise AmbiguousConfigurationError(...)
available_profilers = {opt for opt, _ in _PROFILERS}
for option in prof_config:
    if option not in available_profilers:
        raise BadOptionError(...)
run_stats = OrderedDict()
present_profilers = ((o, p) for o, p in _PROFILERS if o in prof_config)
for option, prof in present_profilers:
    curr_profiler = prof(run_object)
    run_stats[option] = curr_profiler.run()
return run_stats
```

`len(set(prof_config))` is the number of distinct characters, i.e.
`prof_config.dedup.length`.  The construction-and-run of each profiler is the
oracle `runProf`; the second component of the result is the ordered list of
codes whose profiler was constructed and run (empty when validation fails,
since both raises happen before the loop). -/
def run_profilers (runProf : Char → Except ε Record) (prof_config : List Char) :
    Except (RunnerError ε) RunStats × List Char :=
  if prof_config.dedup.length < prof_config.length then
    (.error (.ambiguousConfiguration prof_config), [])
  else
    match prof_config.find? (fun option => !(registryCodes.contains option)) with
    | some option => (.error (.badOption option), [])
    | none => runLoop runProf (registryCodes.filter (fun o => prof_config.contains o))

/-- The result-extraction and sanitization loop of `run`:

```python
result = None
for prof in run_stats:
    if not result:
        result = run_stats[prof]['result']
    del run_stats[prof]['result']
```

`acc` is the current value of the `result` local (`none` = Python `None`).
A record without a `'result'` key makes the subscript (taken when `acc` is
falsy) or the `del` raise `KeyError('result')`.  Returns the sanitized stats
(every record with `'result'` deleted) and the final `result`. -/
def extractLoop : List (Char × Record) → Option PyVal →
    Except (RunnerError ε) (List (Char × Record) × Option PyVal)
  | [], acc => .ok ([], acc)
  | (c, r) :: rest, acc =>
    match r.get "result" with
    | none => .error (.keyError "result")
    | some v =>
      let acc' := if pyTruthy acc then acc else some v
      (extractLoop rest acc').map (fun p => ((c, r.del "result") :: p.1, p.2))

/-- The value the scan of `extractLoop` assigns to `result`: the first
truthy `'result'` value in order wins; while the accumulator is falsy each
entry's `'result'` value overwrites it. -/
def cascadeResult (stats : List (Char × Record)) (acc : Option PyVal) : Option PyVal :=
  stats.foldl (fun a e => if pyTruthy a then a else e.2.get "result") acc

/-- What `run` produces when it reaches the end: the value returned to the
caller, the sanitized stats handed to the transport, and the payload of the
POST request (`gzip.compress(json.dumps(run_stats).encode('utf-8'))`,
modelled by `postPayload` below). -/
structure RunOutcome where
  result : Option PyVal
  sentStats : List (Char × Record)
  payload : List (Nat × Nat)
deriving DecidableEq, Repr

/-! ## The serializer: `json.dumps`

With its default arguments, Python's `json.dumps` renders a dict as
`{"k1": v1, "k2": v2}` in insertion order, item separator `", "`, key
separator `": "`; `ensure_ascii=True` escapes `"` and `\` and every
character outside `0x20..0x7e` — the short escapes `\b \t \n \f \r` when
available, otherwise `\uXXXX` with lowercase hex digits, code points above
`0xFFFF` as a UTF-16 surrogate pair.  Integers render in decimal with a
leading `-` when negative. -/

/-- Lowercase hexadecimal digit character for `n < 16`. -/
def hexDigitChar (n : Nat) : Char :=
  if n < 10 then Char.ofNat (48 + n) else Char.ofNat (87 + n)

/-- Four lowercase hex digits of `n < 0x10000`, most significant first. -/
def hex4 (n : Nat) : List Char :=
  [hexDigitChar (n / 4096), hexDigitChar (n / 256 % 16),
   hexDigitChar (n / 16 % 16), hexDigitChar (n % 16)]

/-- JSON escape of one character, per `json.dumps` with `ensure_ascii=True`. -/
def escapeChar (c : Char) : List Char :=
  if c = '"' then ['\\', '"']
  else if c = '\\' then ['\\', '\\']
  else if c.toNat = 8 then ['\\', 'b']
  else if c.toNat = 9 then ['\\', 't']
  else if c.toNat = 10 then ['\\', 'n']
  else if c.toNat = 12 then ['\\', 'f']
  else if c.toNat = 13 then ['\\', 'r']
  else if c.toNat < 32 ∨ 126 < c.toNat then
    if c.toNat < 65536 then '\\' :: 'u' :: hex4 c.toNat
    else
      ('\\' :: 'u' :: hex4 (55296 + (c.toNat - 65536) / 1024)) ++
      ('\\' :: 'u' :: hex4 (56320 + (c.toNat - 65536) % 1024))
  else [c]

/-- JSON rendering of a string: quote, escaped characters, quote. -/
def dumpString (s : String) : List Char :=
  '"' :: (s.data.map escapeChar).flatten ++ ['"']

/-- Decimal digits of `n`, most significant first (empty for `0`). -/
def decDigits : Nat → List Char
  | 0 => []
  | n + 1 => decDigits ((n + 1) / 10) ++ [Char.ofNat (48 + (n + 1) % 10)]

/-- Decimal rendering of a natural number (`"0"` for `0`). -/
def natRepr (n : Nat) : List Char :=
  if n = 0 then ['0'] else decDigits n

/-- Decimal rendering of an integer, `str(int)` in Python. -/
def intRepr (i : Int) : List Char :=
  if i < 0 then '-' :: natRepr i.natAbs else natRepr i.natAbs

/-- JSON rendering of a scalar value. -/
def dumpVal : PyVal → List Char
  | .int n => intRepr n
  | .str s => dumpString s

/-- Item strings joined with the separator `", "`. -/
def joinComma : List (List Char) → List Char
  | [] => []
  | [x] => x
  | x :: y :: rest => x ++ ',' :: ' ' :: joinComma (y :: rest)

/-- JSON rendering of one record (an inner dict): `"key": value` items. -/
def dumpRecord (r : Record) : List Char :=
  '{' :: joinComma (r.map (fun p => dumpString p.1 ++ ':' :: ' ' :: dumpVal p.2)) ++ ['}']

/-- JSON rendering of the stats mapping: keys are the one-character option
strings, values the records. -/
def dumpStats (st : List (Char × Record)) : List Char :=
  '{' :: joinComma
    (st.map (fun p => dumpString (String.mk [p.1]) ++ ':' :: ' ' :: dumpRecord p.2)) ++ ['}']

/-- Embedding of `json.dumps(run_stats)`. -/
def json_dumps (st : List (Char × Record)) : String :=
  String.mk (dumpStats st)

/-! ## The transport codecs

Modelled from the spec: `str.encode('utf-8')` and `gzip.compress` are
standard-library code outside this repository; the spec requires only that
the text is byte-encoded and then compressed by a "general-purpose lossless
compressor".  They are modelled as executable lossless codecs: the text
encoder maps each character to its code point, and the compressor is a
run-length coder over the resulting numbers. -/

/-- Modelled from the spec: the byte encoding of the serialized text
(`.encode('utf-8')` in the source), modelled losslessly as the sequence of
character codes. -/
def textEncode (s : String) : List Nat :=
  s.data.map Char.toNat

/-- Modelled from the spec: decoding of `textEncode`, `none` on a number
that is not a valid code point. -/
def textDecode (l : List Nat) : Option String :=
  (l.mapM (fun (n : Nat) => if Nat.isValidChar n then some (Char.ofNat n) else none)).map
    String.mk

/-- Modelled from the spec: a general-purpose lossless compressor standing
in for `gzip.compress` — run-length coding, emitting (run length, value)
pairs. -/
def rleCompress : List Nat → List (Nat × Nat)
  | [] => []
  | x :: rest =>
    match rleCompress rest with
    | (k, y) :: out => if x = y then (k + 1, y) :: out else (1, x) :: (k, y) :: out
    | [] => [(1, x)]

/-- Modelled from the spec: decompression of `rleCompress`. -/
def rleDecompress (l : List (Nat × Nat)) : List Nat :=
  (l.map (fun p => List.replicate p.1 p.2)).flatten

/-- The body of the POST request issued by `run`:
`gzip.compress(json.dumps(run_stats).encode('utf-8'))` with the two
standard-library codecs replaced by their lossless models. -/
def postPayload (st : List (Char × Record)) : List (Nat × Nat) :=
  rleCompress (textEncode (json_dumps st))

/-! ## A JSON deserializer

The round-trip claim compares the transmitted payload, decompressed and
decoded, against the pre-transport stats; deserialization is a recursive
descent parser over the character list, covering the grammar `json_dumps`
emits (objects of objects of scalars, `", "` and `": "` separators,
`ensure_ascii` string escapes with surrogate pairs). -/

/-- Value of one hexadecimal digit character. -/
def hexVal (c : Char) : Option Nat :=
  if 48 ≤ c.toNat ∧ c.toNat ≤ 57 then some (c.toNat - 48)
  else if 97 ≤ c.toNat ∧ c.toNat ≤ 102 then some (c.toNat - 87)
  else if 65 ≤ c.toNat ∧ c.toNat ≤ 70 then some (c.toNat - 55)
  else none

/-- Parse exactly four hex digits into their value. -/
def parseHex4 : List Char → Option (Nat × List Char)
  | a :: b :: c :: d :: rest =>
    match hexVal a, hexVal b, hexVal c, hexVal d with
    | some va, some vb, some vc, some vd =>
      some (((va * 16 + vb) * 16 + vc) * 16 + vd, rest)
    | _, _, _, _ => none
  | _ => none

theorem parseHex4_length {l : List Char} {n : Nat} {r : List Char}
    (h : parseHex4 l = some (n, r)) : r.length + 4 = l.length := by
  match l with
  | [] | [_] | [_, _] | [_, _, _] => simp [parseHex4] at h
  | a :: b :: c :: d :: rest =>
    simp only [parseHex4] at h
    split at h
    · simp only [Option.some.injEq, Prod.mk.injEq] at h
      simp [← h.2]
    · exact absurd h (by simp)

/-- Parse the second half of a UTF-16 surrogate-pair escape: a literal
`\u` followed by four hex digits whose value is a low surrogate. -/
def parseLowSurrogate (l : List Char) : Option (Nat × List Char) :=
  match l with
  | e :: u :: tl =>
    if e = '\\' ∧ u = 'u' then
      match parseHex4 tl with
      | some (m, r) => if 56320 ≤ m ∧ m < 57344 then some (m, r) else none
      | none => none
    else none
  | _ => none

theorem parseLowSurrogate_length {l : List Char} {m : Nat} {r : List Char}
    (h : parseLowSurrogate l = some (m, r)) : r.length + 6 = l.length := by
  match l with
  | [] => simp [parseLowSurrogate] at h
  | [_] => simp [parseLowSurrogate] at h
  | e :: u :: tl =>
    simp only [parseLowSurrogate] at h
    split at h
    · split at h
      · split at h
        · simp only [Option.some.injEq, Prod.mk.injEq] at h
          obtain ⟨rfl, rfl⟩ := h
          have := parseHex4_length (by assumption)
          simp only [List.length_cons]
          omega
        · exact absurd h (by simp)
      · exact absurd h (by simp)
    · exact absurd h (by simp)

/-- Parse the body of a JSON string (after the opening quote) up to and
including the closing quote, undoing the `escapeChar` escapes. -/
def parseStringBody (l : List Char) : Option (List Char × List Char) :=
  match l with
  | [] => none
  | c :: rest =>
    if c = '"' then some ([], rest)
    else if c = '\\' then
      match rest with
      | [] => none
      | e :: r =>
        if e = '"' then (parseStringBody r).map (fun p => ('"' :: p.1, p.2))
        else if e = '\\' then (parseStringBody r).map (fun p => ('\\' :: p.1, p.2))
        else if e = 'b' then (parseStringBody r).map (fun p => (Char.ofNat 8 :: p.1, p.2))
        else if e = 't' then (parseStringBody r).map (fun p => (Char.ofNat 9 :: p.1, p.2))
        else if e = 'n' then (parseStringBody r).map (fun p => (Char.ofNat 10 :: p.1, p.2))
        else if e = 'f' then (parseStringBody r).map (fun p => (Char.ofNat 12 :: p.1, p.2))
        else if e = 'r' then (parseStringBody r).map (fun p => (Char.ofNat 13 :: p.1, p.2))
        else if e = 'u' then
          match hx : parseHex4 r with
          | none => none
          | some (n, r₂) =>
            if n < 55296 ∨ 57344 ≤ n then
              (parseStringBody r₂).map (fun p => (Char.ofNat n :: p.1, p.2))
            else if n < 56320 then
              match hz : parseLowSurrogate r₂ with
              | none => none
              | some (m, r₄) =>
                (parseStringBody r₄).map (fun p =>
                  (Char.ofNat (65536 + (n - 55296) * 1024 + (m - 56320)) :: p.1, p.2))
            else none
        else none
    else (parseStringBody rest).map (fun p => (c :: p.1, p.2))
termination_by l.length
decreasing_by
  all_goals simp_wf
  all_goals try omega
  · have := parseHex4_length hx
    omega
  · have h1 := parseHex4_length hx
    have h2 := parseLowSurrogate_length hz
    omega

/-- Parse a run of decimal digits, most significant first, folding into the
accumulator; stops at the first non-digit. -/
def parseDigitsAux : List Char → Nat → Nat × List Char
  | [], acc => (acc, [])
  | c :: rest, acc =>
    if 48 ≤ c.toNat ∧ c.toNat ≤ 57 then parseDigitsAux rest (acc * 10 + (c.toNat - 48))
    else (acc, c :: rest)

/-- Parse a natural number (at least one digit, greedy). -/
def parseNat (l : List Char) : Option (Nat × List Char) :=
  match l with
  | [] => none
  | c :: _ => if 48 ≤ c.toNat ∧ c.toNat ≤ 57 then some (parseDigitsAux l 0) else none

/-- Parse a scalar JSON value: a quoted string, or a decimal integer with an
optional leading minus sign. -/
def parseVal (l : List Char) : Option (PyVal × List Char) :=
  match l with
  | [] => none
  | c :: rest =>
    if c = '"' then (parseStringBody rest).map (fun p => (.str (String.mk p.1), p.2))
    else if c = '-' then (parseNat rest).map (fun p => (.int (-(p.1 : Int)), p.2))
    else (parseNat (c :: rest)).map (fun p => (.int (p.1 : Int), p.2))

/-- Parse a quoted JSON string. -/
def parseKeyString (l : List Char) : Option (String × List Char) :=
  match l with
  | [] => none
  | c :: rest =>
    if c = '"' then (parseStringBody rest).map (fun p => (String.mk p.1, p.2))
    else none

/-- Parse a nonempty `"key": value` list followed by the closing brace, one
entry per unit of fuel (structural recursion on the fuel). -/
def parseEntryList : Nat → List Char → Option (Record × List Char)
  | 0, _ => none
  | fuel + 1, l =>
    match parseKeyString l with
    | none => none
    | some (k, r₁) =>
      match r₁ with
      | ':' :: ' ' :: r₂ =>
        match parseVal r₂ with
        | none => none
        | some (v, r₃) =>
          match r₃ with
          | ',' :: ' ' :: r₄ => (parseEntryList fuel r₄).map (fun p => ((k, v) :: p.1, p.2))
          | '}' :: r₄ => some ([(k, v)], r₄)
          | _ => none
      | _ => none

/-- Parse an inner JSON object into a record. -/
def parseRecord (fuel : Nat) (l : List Char) : Option (Record × List Char) :=
  match l with
  | [] => none
  | c :: rest =>
    if c = '{' then
      match rest with
      | [] => none
      | d :: rest₂ => if d = '}' then some ([], rest₂) else parseEntryList fuel rest
    else none

/-- Parse a nonempty list of top-level entries (one-character keys mapping to
records) followed by the closing brace. -/
def parseStatsEntryList : Nat → List Char → Option (RunStats × List Char)
  | 0, _ => none
  | fuel + 1, l =>
    match parseKeyString l with
    | none => none
    | some (k, r₁) =>
      match k.data with
      | [c] =>
        match r₁ with
        | ':' :: ' ' :: r₂ =>
          match parseRecord fuel r₂ with
          | none => none
          | some (r, r₃) =>
            match r₃ with
            | ',' :: ' ' :: r₄ =>
              (parseStatsEntryList fuel r₄).map (fun p => ((c, r) :: p.1, p.2))
            | '}' :: r₄ => some ([(c, r)], r₄)
            | _ => none
        | _ => none
      | _ => none

/-- Parse the top-level JSON object into a stats mapping. -/
def parseStats (fuel : Nat) (l : List Char) : Option (RunStats × List Char) :=
  match l with
  | [] => none
  | c :: rest =>
    if c = '{' then
      match rest with
      | [] => none
      | d :: rest₂ => if d = '}' then some ([], rest₂) else parseStatsEntryList fuel rest
    else none

/-- Deserialization of the transported text: parse the whole string as a
stats object (the fuel, one unit per entry, is amply covered by the length
of the input), requiring full consumption. -/
def json_loads (s : String) : Option RunStats :=
  match parseStats s.data.length s.data with
  | some (st, []) => some st
  | _ => none

/-- Shallow embedding of `run(func, options, ...)`:

```python
run_stats = run_profilers((func, args, kwargs), options)
result = None
for prof in run_stats:
    if not result:
        result = run_stats[prof]['result']
    del run_stats[prof]['result']  # Don't send result to remote host
post_data = gzip.compress(json.dumps(run_stats).encode('utf-8'))
urllib.request.urlopen('http://%s:%s' % (host, port), post_data)
return result
```

Any raised exception propagates as `.error` (the matches are exactly
exception propagation); on success the outcome carries the caller's return
value, the sanitized stats and the transmitted payload. -/
def run (runProf : Char → Except ε Record) (options : List Char) :
    Except (RunnerError ε) RunOutcome :=
  match (run_profilers runProf options).1 with
  | .error e => .error e
  | .ok run_stats =>
    match extractLoop run_stats none with
    | .error e => .error e
    | .ok p => .ok ⟨p.2, p.1, postPayload p.1⟩

/-! ## The shared default-argument objects of `run`

Python evaluates a function's default parameter expressions once, when the
`def` statement executes; the resulting objects are stored with the function
object, and every call that omits the corresponding argument is bound to the
same stored object.  The signature under study is
`def run(func, options, args=(), kwargs={}, host='localhost', port=8000)`
(the source even carries `# pylint: disable=dangerous-default-value`), so the
mutable dict the literal `{}` allocates when the module loads is shared by
all calls that omit `kwargs`.  Object identity is modelled with a heap of
dict cells; cell `0` is that definition-time dict. -/

/-- Heap of Python dict objects, index = object identity. -/
structure PyHeap where
  cells : List Record
deriving DecidableEq, Repr

/-- Identity of the dict allocated by the `kwargs={}` default when the
`def run` statement executed. -/
def kwargsDefaultRef : Nat := 0

/-- The heap as module loading leaves it: the one stored default dict,
still empty. -/
def moduleHeap : PyHeap := ⟨[[]]⟩

/-- Argument binding for one call of `run`: the caller's own dict when the
argument is supplied, otherwise the stored definition-time default object —
not a fresh dict. -/
def bindKwargs (supplied : Option Nat) : Nat :=
  supplied.getD kwargsDefaultRef

/-- Read a dict object. -/
def PyHeap.read (h : PyHeap) (ref : Nat) : Record :=
  h.cells.getD ref []

/-- Mutate a dict object in place. -/
def PyHeap.write (h : PyHeap) (ref : Nat) (d : Record) : PyHeap :=
  ⟨h.cells.set ref d⟩

/-! ## Spec-side definition for the return-value claim -/

/-- Modelled from the spec, for comparison with the code: "the first
ResultRecord containing a `result` field supplies the overall invocation's
return value" — scan the stats in order and take the `result` value of the
first record that has one. -/
def specFirstResult (stats : List (Char × Record)) : Option PyVal :=
  (stats.find? (fun e => (e.2.get "result").isSome)).bind (fun e => e.2.get "result")

/-! ## Lemmas about validation and the execution loop -/

theorem dedup_length_lt_iff {cfg : List Char} :
    cfg.dedup.length < cfg.length ↔ ¬ cfg.Nodup := by
  constructor
  · intro h hnd
    rw [hnd.dedup] at h
    exact lt_irrefl _ h
  · intro hnd
    rcases Nat.lt_or_ge cfg.dedup.length cfg.length with h | h
    · exact h
    · exact absurd (cfg.dedup_sublist.eq_of_length
        (le_antisymm cfg.dedup_sublist.length_le h)) (fun he => hnd (he ▸ cfg.nodup_dedup))

theorem runLoop_ok {rp : Char → Except ε Record} :
    ∀ {l : List Char} {stats : RunStats}, (runLoop rp l).1 = .ok stats →
      stats.map Prod.fst = l ∧ (runLoop rp l).2 = l := by
  intro l
  induction l with
  | nil => intro stats h; cases h; exact ⟨rfl, rfl⟩
  | cons c rest ih =>
    intro stats h
    simp only [runLoop] at h ⊢
    cases hc : rp c with
    | error e => rw [hc] at h; exact absurd h (by simp)
    | ok r =>
      rw [hc] at h
      cases hrest : (runLoop rp rest).1 with
      | error e => rw [hrest] at h; exact absurd h (by simp [Except.map])
      | ok tl =>
        rw [hrest] at h
        simp only [Except.map, Except.ok.injEq] at h
        obtain ⟨h1, h2⟩ := ih hrest
        subst h
        simp [hc, h1, h2]

theorem runLoop_fail {rp : Char → Except ε Record} {c : Char} {e : ε}
    (hc : rp c = .error e) :
    ∀ {l₁ : List Char} (l₂ : List Char), (∀ x ∈ l₁, ∃ r, rp x = .ok r) →
      runLoop rp (l₁ ++ c :: l₂) = (.error (.profilerFailure e), l₁ ++ [c]) := by
  intro l₁
  induction l₁ with
  | nil => intro l₂ _; simp [runLoop, hc]
  | cons x tl ih =>
    intro l₂ hok
    obtain ⟨r, hr⟩ := hok x (List.mem_cons_self x tl)
    have ihh := ih l₂ (fun y hy => hok y (List.mem_cons_of_mem x hy))
    show runLoop rp (x :: (tl ++ c :: l₂)) = _
    rw [runLoop, hr, ihh]
    rfl

theorem run_profilers_valid {rp : Char → Except ε Record} {cfg : List Char}
    (hnd : cfg.Nodup) (hall : ∀ c ∈ cfg, c ∈ registryCodes) :
    run_profilers rp cfg = runLoop rp (registryCodes.filter (fun o => cfg.contains o)) := by
  unfold run_profilers
  rw [if_neg (by rw [dedup_length_lt_iff]; exact fun h => h hnd)]
  have hfind : cfg.find? (fun option => !(registryCodes.contains option)) = none := by
    rw [List.find?_eq_none]
    intro x hx
    simp [hall x hx]
  rw [hfind]

theorem run_profilers_ok_keys {rp : Char → Except ε Record} {cfg : List Char}
    {stats : RunStats} (h : (run_profilers rp cfg).1 = .ok stats) :
    stats.map Prod.fst = registryCodes.filter (fun o => cfg.contains o) ∧
    (run_profilers rp cfg).2 = registryCodes.filter (fun o => cfg.contains o) := by
  by_cases hdl : cfg.dedup.length < cfg.length
  · rw [run_profilers, if_pos hdl] at h
    exact absurd h (by simp)
  · cases hfind : cfg.find? (fun option => !(registryCodes.contains option)) with
    | some c =>
      rw [run_profilers, if_neg hdl, hfind] at h
      exact absurd h (by simp)
    | none =>
      rw [run_profilers, if_neg hdl, hfind] at h
      unfold run_profilers
      rw [if_neg hdl, hfind]
      exact runLoop_ok h

theorem run_eq (rp : Char → Except ε Record) (options : List Char) :
    run rp options =
      match (run_profilers rp options).1 with
      | .error e => .error e
      | .ok stats =>
        match extractLoop stats none with
        | .error e => .error e
        | .ok p => .ok ⟨p.2, p.1, postPayload p.1⟩ := rfl

theorem Record.get_del (r : Record) (k : String) : (r.del k).get k = none := by
  induction r with
  | nil => rfl
  | cons p tl ih =>
    by_cases h : p.1 = k
    · simp only [Record.del, List.filter_cons]
      rw [if_neg (by simp [h])]
      exact ih
    · simp only [Record.del, List.filter_cons]
      rw [if_pos (by simp [h])]
      simp only [Record.get, List.lookup]
      rw [show (k == p.1) = false from beq_eq_false_iff_ne.mpr (fun hk => h hk.symm)]
      exact ih

theorem extractLoop_ok {stats : List (Char × Record)} {acc : Option PyVal}
    (h : ∀ e ∈ stats, (Record.get e.2 "result").isSome) :
    extractLoop (ε := ε) stats acc =
      .ok (stats.map (fun e => (e.1, Record.del e.2 "result")), cascadeResult stats acc) := by
  induction stats generalizing acc with
  | nil => rfl
  | cons e tl ih =>
    obtain ⟨c, r⟩ := e
    obtain ⟨v, hv⟩ := Option.isSome_iff_exists.mp (h _ (List.mem_cons_self _ _))
    simp only [extractLoop, hv, ih (fun x hx => h x (List.mem_cons_of_mem _ hx)), Except.map]
    simp [cascadeResult, hv]

theorem extractLoop_err {stats : List (Char × Record)} {acc : Option PyVal}
    (h : ∃ e ∈ stats, Record.get e.2 "result" = none) :
    extractLoop (ε := ε) stats acc = .error (.keyError "result") := by
  induction stats generalizing acc with
  | nil => simp at h
  | cons e tl ih =>
    obtain ⟨c, r⟩ := e
    cases hr : Record.get r "result" with
    | none => simp [extractLoop, hr]
    | some v =>
      rcases h with ⟨x, hx, hnone⟩
      rcases List.mem_cons.mp hx with rfl | hmem
      · exact absurd hnone (by simp [hr])
      · simp [extractLoop, hr, ih ⟨x, hmem, hnone⟩, Except.map]

theorem run_ok_stats {rp : Char → Except ε Record} {cfg : List Char} {out : RunOutcome}
    (h : run rp cfg = .ok out) :
    ∃ stats, (run_profilers rp cfg).1 = .ok stats ∧
      (∀ e ∈ stats, (Record.get e.2 "result").isSome) ∧
      out = ⟨cascadeResult stats none,
        stats.map (fun e => (e.1, Record.del e.2 "result")),
        postPayload (stats.map (fun e => (e.1, Record.del e.2 "result")))⟩ := by
  rw [run_eq] at h
  cases hstats : (run_profilers rp cfg).1 with
  | error e => rw [hstats] at h; exact absurd h (by simp)
  | ok stats =>
    rw [hstats] at h
    replace h : (match extractLoop (ε := ε) stats none with
        | .error e => (.error e : Except (RunnerError ε) RunOutcome)
        | .ok p => .ok ⟨p.2, p.1, postPayload p.1⟩) = .ok out := h
    refine ⟨stats, rfl, ?_⟩
    have hall : ∀ e ∈ stats, (Record.get e.2 "result").isSome := by
      by_contra hn
      push_neg at hn
      obtain ⟨x, hx, hns⟩ := hn
      rw [extractLoop_err ⟨x, hx, Option.not_isSome_iff_eq_none.mp hns⟩] at h
      exact absurd h (by simp)
    refine ⟨hall, ?_⟩
    rw [extractLoop_ok hall] at h
    simp only [Except.ok.injEq] at h
    rw [← h]

/-! ## Claim C1 -/

/-- C1: for every valid configuration (one whose `run_profilers` call returns
stats) the stats mapping's keys are the registry's fixed order restricted to
the requested codes; two configurations requesting the same codes in any
order produce the same key sequence. -/
theorem C1_stats_key_order (rp rp' : Char → Except ε Record) (cfg cfg' : List Char)
    (stats stats' : RunStats)
    (h : (run_profilers rp cfg).1 = .ok stats)
    (h' : (run_profilers rp' cfg').1 = .ok stats')
    (hsame : ∀ c, c ∈ cfg ↔ c ∈ cfg') :
    stats.map Prod.fst = registryCodes.filter (fun o => cfg.contains o) ∧
    stats.map Prod.fst = stats'.map Prod.fst := by
  have k1 := (run_profilers_ok_keys h).1
  have k2 := (run_profilers_ok_keys h').1
  refine ⟨k1, ?_⟩
  rw [k1, k2]
  refine List.filter_congr (fun x _ => ?_)
  simp only [List.contains, List.elem_eq_mem]
  exact decide_eq_decide.mpr (hsame x)

/-- Witness for C1 at a concrete input: configurations `"mc"` and `"cm"`
give stats keyed `[m, c]`, the registry order. -/
theorem C1_stats_key_order_witness :
    ((run_profilers (fun _ => (.ok [] : Except Unit Record)) ['m', 'c']).1 =
      .ok [('m', []), ('c', [])]) ∧
    ((run_profilers (fun _ => (.ok [] : Except Unit Record)) ['c', 'm']).1 =
      .ok ([('m', []), ('c', [])] : RunStats)) ∧
    ([('m', ([] : Record)), ('c', [])].map Prod.fst =
        registryCodes.filter (fun o => (['m', 'c'] : List Char).contains o) ∧
      [('m', ([] : Record)), ('c', [])].map Prod.fst =
        [('m', ([] : Record)), ('c', [])].map Prod.fst) := by
  refine ⟨by decide, by decide, ?_⟩
  exact C1_stats_key_order (ε := Unit) (fun _ => .ok []) (fun _ => .ok [])
    ['m', 'c'] ['c', 'm'] [('m', []), ('c', [])] [('m', []), ('c', [])] (by decide) (by decide)
    (fun c => by constructor <;> (intro hm; simp only [List.mem_cons] at hm ⊢; tauto))

/-! ## Claim C4 -/

/-- C4: a configuration containing some code more than once fails validation
with `AmbiguousConfigurationError` carrying the original configuration
string, detected by comparing the length with the number of distinct
elements; no profiler is run (empty trace). -/
theorem C4_duplicate_configuration (rp : Char → Except ε Record) (cfg : List Char)
    (h : ∃ c, 1 < cfg.count c) :
    run_profilers rp cfg = (.error (.ambiguousConfiguration cfg), []) := by
  have hnd : ¬ cfg.Nodup := by
    rcases h with ⟨c, hc⟩
    intro hn
    exact absurd (List.nodup_iff_count_le_one.mp hn c) (by omega)
  rw [run_profilers, if_pos (dedup_length_lt_iff.mpr hnd)]

/-- Witness for C4: configuration `"mm"`. -/
theorem C4_duplicate_configuration_witness :
    (∃ c, 1 < (['m', 'm'] : List Char).count c) ∧
    run_profilers (fun _ => (.ok [] : Except Unit Record)) ['m', 'm'] =
      ((.error (.ambiguousConfiguration ['m', 'm']) : Except (RunnerError Unit) RunStats), []) :=
  ⟨⟨'m', by decide⟩, C4_duplicate_configuration _ _ ⟨'m', by decide⟩⟩

/-! ## Claim C5 -/

/-- C5: a duplicate-free configuration containing a code outside the registry
fails validation with `BadOptionError` carrying an offending code (the first
such code in configuration order); no profiler is run. -/
theorem C5_unknown_option (rp : Char → Except ε Record) (cfg : List Char)
    (hnd : cfg.Nodup) (h : ∃ c ∈ cfg, c ∉ registryCodes) :
    ∃ c ∈ cfg, c ∉ registryCodes ∧
      run_profilers rp cfg = (.error (.badOption c), []) := by
  have hfind : (cfg.find? (fun option => !(registryCodes.contains option))).isSome := by
    rw [List.find?_isSome]
    rcases h with ⟨c, hc, hreg⟩
    exact ⟨c, hc, by simpa using hreg⟩
  obtain ⟨c, hc⟩ := Option.isSome_iff_exists.mp hfind
  refine ⟨c, List.mem_of_find?_eq_some hc, by simpa using List.find?_some hc, ?_⟩
  rw [run_profilers, if_neg (by rw [dedup_length_lt_iff]; exact fun hk => hk hnd), hc]

/-- Witness for C5: configuration `"x"`, an unregistered code. -/
theorem C5_unknown_option_witness :
    (['x'] : List Char).Nodup ∧
    ∃ c ∈ (['x'] : List Char), c ∉ registryCodes ∧
      run_profilers (fun _ => (.ok [] : Except Unit Record)) ['x'] =
        ((.error (.badOption c) : Except (RunnerError Unit) RunStats), []) :=
  ⟨by decide, C5_unknown_option _ _ (by decide) ⟨'x', by decide, by decide⟩⟩

/-! ## Claim C7 -/

/-- C7: whenever validation fails — a duplicated code or a code outside the
registry — `run_profilers` raises before the execution loop: the trace of
constructed-and-run profilers is empty, so validation failures have no
instrumentation side effects. -/
theorem C7_validation_before_execution (rp : Char → Except ε Record) (cfg : List Char)
    (h : ¬ cfg.Nodup ∨ ∃ c ∈ cfg, c ∉ registryCodes) :
    (∃ e, (run_profilers rp cfg).1 = .error e) ∧ (run_profilers rp cfg).2 = [] := by
  by_cases hdl : cfg.dedup.length < cfg.length
  · rw [run_profilers, if_pos hdl]
    exact ⟨⟨.ambiguousConfiguration cfg, rfl⟩, rfl⟩
  · have hnd : cfg.Nodup := by
      by_contra hn
      exact hdl (dedup_length_lt_iff.mpr hn)
    rcases h with hdup | hbad
    · exact absurd hnd hdup
    · have hfind : (cfg.find? (fun option => !(registryCodes.contains option))).isSome := by
        rw [List.find?_isSome]
        rcases hbad with ⟨c, hc, hreg⟩
        exact ⟨c, hc, by simpa using hreg⟩
      obtain ⟨c, hc⟩ := Option.isSome_iff_exists.mp hfind
      rw [run_profilers, if_neg hdl, hc]
      exact ⟨⟨.badOption c, rfl⟩, rfl⟩

/-- Witness for C7: the duplicated configuration `"mm"` runs nothing. -/
theorem C7_validation_before_execution_witness :
    (¬ (['m', 'm'] : List Char).Nodup ∨ ∃ c ∈ (['m', 'm'] : List Char), c ∉ registryCodes) ∧
    ((∃ e, (run_profilers (fun _ => (.ok [] : Except Unit Record)) ['m', 'm']).1 =
        (.error e : Except (RunnerError Unit) RunStats)) ∧
      (run_profilers (fun _ => (.ok ([] : Record) : Except Unit Record)) ['m', 'm']).2 = []) :=
  ⟨Or.inl (by decide), C7_validation_before_execution _ _ (Or.inl (by decide))⟩

/-! ## Profiler behaviors used by concrete witnesses -/

/-- Witness behavior: the `c` profiler raises, every other returns an empty
record. -/
def oracleFailC : Char → Except Unit Record :=
  fun x => if x = 'c' then .error () else .ok []

/-- Witness behavior: every profiler returns a record whose `result` is 1. -/
def oracleOk1 : Char → Except Unit Record :=
  fun _ => .ok [("result", .int 1)]

/-- Witness behavior: the `m` profiler reports a falsy `result = 0`, the
others `result = 42`. -/
def oracleC2 : Char → Except Unit Record :=
  fun x => if x = 'm' then .ok [("result", .int 0)] else .ok [("result", .int 42)]

/-- Witness behavior: records carry no `result` field at all. -/
def oracleNoResult : Char → Except Unit Record :=
  fun _ => .ok [("mem", .int 5)]

/-! ## Claim C6 -/

/-- C6: the stats mapping is fully assembled before transmission — a run
that reaches the transport has run every requested profiler (trace equals
the full registry-restricted request) and holds a complete stats mapping;
and when some profiler fails, the error propagates at once: the profilers
after it never run (the trace stops at the failing one), `run_profilers`
returns no stats, and `run` propagates the failure, so nothing is
transmitted. -/
theorem C6_all_or_nothing (rp : Char → Except ε Record) (cfg : List Char) :
    (∀ out, run rp cfg = .ok out →
        (run_profilers rp cfg).2 = registryCodes.filter (fun o => cfg.contains o) ∧
        ∃ stats, (run_profilers rp cfg).1 = .ok stats ∧
          stats.map Prod.fst = registryCodes.filter (fun o => cfg.contains o)) ∧
    (∀ l₁ c l₂ e, cfg.Nodup → (∀ x ∈ cfg, x ∈ registryCodes) →
        registryCodes.filter (fun o => cfg.contains o) = l₁ ++ c :: l₂ →
        (∀ x ∈ l₁, ∃ r, rp x = .ok r) → rp c = .error e →
        run_profilers rp cfg = (.error (.profilerFailure e), l₁ ++ [c]) ∧
        run rp cfg = .error (.profilerFailure e)) := by
  constructor
  · intro out hout
    obtain ⟨stats, hstats, -, -⟩ := run_ok_stats hout
    obtain ⟨hk, ht⟩ := run_profilers_ok_keys hstats
    exact ⟨ht, stats, hstats, hk⟩
  · intro l₁ c l₂ e hnd hall hfilter hok hc
    have hrp : run_profilers rp cfg = (.error (.profilerFailure e), l₁ ++ [c]) := by
      rw [run_profilers_valid hnd hall, hfilter]
      exact runLoop_fail hc l₂ hok
    refine ⟨hrp, ?_⟩
    rw [run_eq, show (run_profilers rp cfg).1 = .error (.profilerFailure e) by rw [hrp]]

/-- Witness for C6: with `"mc"` requested and the `c` profiler failing, the
`m` profiler runs, `c` aborts the run, and `run` propagates the failure;
with `"m"` requested and everything fine, the run transmits after the full
trace. -/
theorem C6_all_or_nothing_witness :
    (run_profilers oracleFailC ['c', 'm'] = (.error (.profilerFailure ()), ['m', 'c']) ∧
      run oracleFailC ['c', 'm'] = .error (.profilerFailure ())) ∧
    ((run_profilers oracleOk1 ['m']).2 =
        registryCodes.filter (fun o => (['m'] : List Char).contains o) ∧
      ∃ stats, (run_profilers oracleOk1 ['m']).1 = .ok stats ∧
        stats.map Prod.fst = registryCodes.filter (fun o => (['m'] : List Char).contains o)) := by
  constructor
  · exact (C6_all_or_nothing oracleFailC ['c', 'm']).2 ['m'] 'c' [] () (by decide)
      (by decide) (by decide)
      (fun x hx => ⟨[], by simp only [List.mem_singleton] at hx; subst hx; rfl⟩) (by decide)
  · exact (C6_all_or_nothing oracleOk1 ['m']).1
      ⟨some (.int 1), [('m', [])], postPayload [('m', [])]⟩ (by decide)

/-! ## Claim C10 -/

/-- C10: when some requested profiler's record lacks a `result` key, the
extraction loop's subscript or deletion raises `KeyError('result')`; the
failure propagates out of `run` (no value is returned) and nothing is
transmitted. -/
theorem C10_missing_result_key (rp : Char → Except ε Record) (cfg : List Char)
    (stats : RunStats) (hstats : (run_profilers rp cfg).1 = .ok stats)
    (h : ∃ e ∈ stats, Record.get e.2 "result" = none) :
    run rp cfg = .error (.keyError "result") := by
  rw [run_eq, hstats]
  show (match extractLoop (ε := ε) stats none with
      | .error e => (.error e : Except (RunnerError ε) RunOutcome)
      | .ok p => .ok ⟨p.2, p.1, postPayload p.1⟩) = _
  rw [extractLoop_err h]

/-- Witness for C10: a single `m` record `{mem: 5}` with no `result`. -/
theorem C10_missing_result_key_witness :
    (run_profilers oracleNoResult ['m']).1 = .ok [('m', [("mem", .int 5)])] ∧
    (∃ e ∈ [('m', [("mem", PyVal.int 5)])], Record.get e.2 "result" = none) ∧
    run oracleNoResult ['m'] = .error (.keyError "result") :=
  ⟨by decide, ⟨('m', [("mem", .int 5)]), by decide, by decide⟩,
    C10_missing_result_key _ _ [('m', [("mem", .int 5)])] (by decide)
      ⟨('m', [("mem", .int 5)]), by decide, by decide⟩⟩

/-! ## Claim C2 -/

/-- C2 counterexample: with configuration `"mc"`, every record contains a
`result` field and the first record in registry order (`m`) carries
`result = 0`; the spec-side reading (`specFirstResult`) picks `0`, but `run`
returns `42` from the second record, because the code's scan advances past
falsy values (`if not result:`), not past records lacking the field. -/
theorem C2_counterexample :
    (run_profilers oracleC2 ['m', 'c']).1 =
      .ok [('m', [("result", .int 0)]), ('c', [("result", .int 42)])] ∧
    (∀ e ∈ [('m', [("result", PyVal.int 0)]), ('c', [("result", PyVal.int 42)])],
      (Record.get e.2 "result").isSome) ∧
    specFirstResult [('m', [("result", .int 0)]), ('c', [("result", .int 42)])] =
      some (.int 0) ∧
    (run oracleC2 ['m', 'c']).map RunOutcome.result = .ok (some (.int 42)) ∧
    some (PyVal.int 42) ≠ some (PyVal.int 0) :=
  ⟨by decide, by decide, by decide, by decide, by decide⟩

/-- C2 amended: when every requested record contains a `result` field, the
value `run` returns is the code's truthiness cascade over the stats in
registry order: the first truthy `result` value wins, and while the
accumulator is falsy each subsequent record's `result` overwrites it (so
with all-falsy records the last one's value is returned; `None` with no
records). -/
theorem C2_amended_truthy_scan (rp : Char → Except ε Record) (cfg : List Char)
    (stats : RunStats) (hstats : (run_profilers rp cfg).1 = .ok stats)
    (hall : ∀ e ∈ stats, (Record.get e.2 "result").isSome) :
    (run rp cfg).map RunOutcome.result = .ok (cascadeResult stats none) := by
  rw [run_eq, hstats]
  show Except.map RunOutcome.result
      (match extractLoop (ε := ε) stats none with
        | .error e => .error e
        | .ok p => .ok ⟨p.2, p.1, postPayload p.1⟩) = _
  rw [extractLoop_ok hall]
  rfl

/-- Witness for C2 (amended): at the falsy-then-truthy behavior, the cascade
value (42) is what `run` returns. -/
theorem C2_amended_truthy_scan_witness :
    (run_profilers oracleC2 ['m', 'c']).1 =
      .ok [('m', [("result", .int 0)]), ('c', [("result", .int 42)])] ∧
    (∀ e ∈ [('m', [("result", PyVal.int 0)]), ('c', [("result", PyVal.int 42)])],
      (Record.get e.2 "result").isSome) ∧
    (run oracleC2 ['m', 'c']).map RunOutcome.result =
      .ok (cascadeResult [('m', [("result", .int 0)]), ('c', [("result", .int 42)])] none) :=
  ⟨by decide, by decide,
    C2_amended_truthy_scan oracleC2 ['m', 'c'] _ (by decide) (by decide)⟩

/-! ## Claim C3 -/

/-- C3: a callable run that reaches transmission has had the `result` field
deleted from every record in the transported stats (not only the consulted
one) — no transmitted entry contains a `result` key — while the extracted
value is still returned to the caller, and the payload is built from the
sanitized stats. -/
theorem C3_result_stripped (rp : Char → Except ε Record) (cfg : List Char)
    (stats : RunStats) (out : RunOutcome)
    (hstats : (run_profilers rp cfg).1 = .ok stats)
    (hrun : run rp cfg = .ok out) :
    (∀ e ∈ out.sentStats, Record.get e.2 "result" = none) ∧
    out.result = cascadeResult stats none ∧
    out.payload = postPayload out.sentStats := by
  obtain ⟨stats', hstats', hall, hout⟩ := run_ok_stats hrun
  rw [hstats] at hstats'
  injection hstats' with hs
  subst hs
  subst hout
  refine ⟨?_, rfl, rfl⟩
  intro e he
  simp only [List.mem_map] at he
  obtain ⟨x, hx, rfl⟩ := he
  exact Record.get_del x.2 "result"

/-- Witness for C3 at the falsy-then-truthy behavior: both transmitted
records lost their `result` key and the caller still receives 42. -/
theorem C3_result_stripped_witness :
    (run_profilers oracleC2 ['m', 'c']).1 =
      .ok [('m', [("result", .int 0)]), ('c', [("result", .int 42)])] ∧
    run oracleC2 ['m', 'c'] =
      .ok ⟨some (.int 42), [('m', []), ('c', [])], postPayload [('m', []), ('c', [])]⟩ ∧
    ((∀ e ∈ ([('m', []), ('c', [])] : RunStats), Record.get e.2 "result" = none) ∧
      some (PyVal.int 42) =
        cascadeResult [('m', [("result", .int 0)]), ('c', [("result", .int 42)])] none ∧
      postPayload [('m', []), ('c', [])] = postPayload [('m', []), ('c', [])]) :=
  ⟨by decide, by decide,
    C3_result_stripped oracleC2 ['m', 'c']
      [('m', [("result", .int 0)]), ('c', [("result", .int 42)])]
      ⟨some (.int 42), [('m', []), ('c', [])], postPayload [('m', []), ('c', [])]⟩
      (by decide) (by decide)⟩

/-! ## Claim C8 -/

/-- C8 counterexample: `bindKwargs` — the argument binding Python performs
for `def run(..., kwargs={}, ...)` — gives every call that omits `kwargs`
the same definition-time dict object (cell `kwargsDefaultRef` of the module
heap), not a fresh one; a mutation through one call's binding is then read
back through a later call's binding: the default is a single shared
instance, contradicting "constructed fresh per call". -/
theorem C8_counterexample :
    bindKwargs none = kwargsDefaultRef ∧
    moduleHeap.read (bindKwargs none) = [] ∧
    (moduleHeap.write (bindKwargs none) [("leak", PyVal.int 1)]).read (bindKwargs none) =
      [("leak", PyVal.int 1)] ∧
    [("leak", PyVal.int 1)] ≠ ([] : Record) := by decide

/-- C8 amended: the defaults `args=()` and `kwargs={}` are evaluated once,
when the `def` statement runs; every call that omits `kwargs` is bound to
that one stored dict object, so any two such calls share the instance and a
mutation of it during one invocation is observable in later invocations
(the tuple default is likewise shared but immutable). -/
theorem C8_amended_shared_default (s₁ s₂ : Option Nat) (d : Record)
    (h₁ : s₁ = none) (h₂ : s₂ = none) :
    bindKwargs s₁ = bindKwargs s₂ ∧
    (moduleHeap.write (bindKwargs s₁) d).read (bindKwargs s₂) = d := by
  subst h₁
  subst h₂
  exact ⟨rfl, rfl⟩

/-- Witness for C8 (amended) at a concrete mutation. -/
theorem C8_amended_shared_default_witness :
    ((none : Option Nat) = none) ∧
    bindKwargs none = bindKwargs none ∧
    (moduleHeap.write (bindKwargs none) [("leak", PyVal.int 1)]).read (bindKwargs none) =
      [("leak", PyVal.int 1)] :=
  ⟨rfl, (C8_amended_shared_default none none [("leak", PyVal.int 1)] rfl rfl).1,
    (C8_amended_shared_default none none [("leak", PyVal.int 1)] rfl rfl).2⟩

/-! ## Round-trip of the serializer: characters and hex digits -/

theorem char_eq_of_toNat {c d : Char} (h : c.toNat = d.toNat) : c = d :=
  Char.ext (UInt32.ext h)

theorem toNat_ofNat_valid {n : Nat} (h : Nat.isValidChar n) :
    (Char.ofNat n).toNat = n := by
  unfold Char.ofNat
  rw [dif_pos h]
  rfl

theorem hexVal_hexDigitChar {d : Nat} (h : d < 16) :
    hexVal (hexDigitChar d) = some d := by
  interval_cases d <;> rfl

theorem parseHex4_hex4 {n : Nat} (h : n < 65536) (rest : List Char) :
    parseHex4 (hex4 n ++ rest) = some (n, rest) := by
  have h3 : n / 4096 < 16 := by omega
  have h2 : n / 256 % 16 < 16 := Nat.mod_lt _ (by omega)
  have h1 : n / 16 % 16 < 16 := Nat.mod_lt _ (by omega)
  have h0 : n % 16 < 16 := Nat.mod_lt _ (by omega)
  simp only [hex4, List.cons_append, List.nil_append, parseHex4,
    hexVal_hexDigitChar h3, hexVal_hexDigitChar h2, hexVal_hexDigitChar h1,
    hexVal_hexDigitChar h0, Option.some.injEq, Prod.mk.injEq]
  exact ⟨by omega, trivial⟩

theorem escapeChar_parse (c : Char) (rest : List Char) :
    parseStringBody (escapeChar c ++ rest) =
      (parseStringBody rest).map (fun p => (c :: p.1, p.2)) := by
  by_cases hq : c = '"'
  · subst hq
    simp [escapeChar, parseStringBody]
  by_cases hbs : c = '\\'
  · subst hbs
    simp [escapeChar, parseStringBody]
  by_cases h8 : c.toNat = 8
  · have hc : Char.ofNat 8 = c := char_eq_of_toNat (by rw [h8]; decide)
    simp [escapeChar, hq, hbs, h8, parseStringBody]
    rw [hc]
  by_cases h9 : c.toNat = 9
  · have hc : Char.ofNat 9 = c := char_eq_of_toNat (by rw [h9]; decide)
    simp [escapeChar, hq, hbs, h8, h9, parseStringBody]
    rw [hc]
  by_cases h10 : c.toNat = 10
  · have hc : Char.ofNat 10 = c := char_eq_of_toNat (by rw [h10]; decide)
    simp [escapeChar, hq, hbs, h8, h9, h10, parseStringBody]
    rw [hc]
  by_cases h12 : c.toNat = 12
  · have hc : Char.ofNat 12 = c := char_eq_of_toNat (by rw [h12]; decide)
    simp [escapeChar, hq, hbs, h8, h9, h10, h12, parseStringBody]
    rw [hc]
  by_cases h13 : c.toNat = 13
  · have hc : Char.ofNat 13 = c := char_eq_of_toNat (by rw [h13]; decide)
    simp [escapeChar, hq, hbs, h8, h9, h10, h12, h13, parseStringBody]
    rw [hc]
  by_cases hesc : c.toNat < 32 ∨ 126 < c.toNat
  · have hrepr : escapeChar c =
        if c.toNat < 65536 then '\\' :: 'u' :: hex4 c.toNat
        else ('\\' :: 'u' :: hex4 (55296 + (c.toNat - 65536) / 1024)) ++
          ('\\' :: 'u' :: hex4 (56320 + (c.toNat - 65536) % 1024)) := by
      simp [escapeChar, hq, hbs, h8, h9, h10, h12, h13, hesc]
    rcases Nat.lt_or_ge c.toNat 65536 with hsmall | hbig
    · have hcond : c.toNat < 55296 ∨ 57344 ≤ c.toNat := by
        rcases c.valid with hv | hv
        · exact Or.inl hv
        · exact Or.inr hv.1
      rw [hrepr, if_pos hsmall]
      simp only [List.cons_append]
      rw [parseStringBody.eq_def]
      simp only [Char.reduceEq, reduceIte]
      split
      · next hy =>
        rw [parseHex4_hex4 hsmall] at hy
        exact absurd hy (by simp)
      · next n r₂ hy =>
        rw [parseHex4_hex4 hsmall] at hy
        simp only [Option.some.injEq, Prod.mk.injEq] at hy
        obtain ⟨rfl, rfl⟩ := hy
        rw [if_pos hcond, Char.ofNat_toNat]
    · have hvalid : c.toNat < 55296 ∨ (57344 ≤ c.toNat ∧ c.toNat < 1114112) := c.valid
      have hlt : c.toNat < 1114112 := by omega
      have hmod := Nat.mod_lt (c.toNat - 65536) (show 0 < 1024 by omega)
      have hdiv : (c.toNat - 65536) / 1024 < 1024 := by omega
      have hhi : 55296 + (c.toNat - 65536) / 1024 < 65536 := by omega
      have hlo : 56320 + (c.toNat - 65536) % 1024 < 65536 := by omega
      have hn1 : ¬(55296 + (c.toNat - 65536) / 1024 < 55296 ∨
          57344 ≤ 55296 + (c.toNat - 65536) / 1024) := by omega
      have hn2 : 55296 + (c.toNat - 65536) / 1024 < 56320 := by omega
      have hc2 : 56320 ≤ 56320 + (c.toNat - 65536) % 1024 ∧
          56320 + (c.toNat - 65536) % 1024 < 57344 := by omega
      have harith : 65536 + (c.toNat - 65536) / 1024 * 1024 + (c.toNat - 65536) % 1024
          = c.toNat := by
        have := Nat.div_add_mod (c.toNat - 65536) 1024
        omega
      rw [hrepr, if_neg (by omega)]
      simp only [List.cons_append, List.append_assoc]
      rw [parseStringBody.eq_def]
      simp only [Char.reduceEq, reduceIte]
      split
      · next hy =>
        rw [parseHex4_hex4 hhi] at hy
        exact absurd hy (by simp)
      · next n r₂ hy =>
        rw [parseHex4_hex4 hhi] at hy
        simp only [Option.some.injEq, Prod.mk.injEq] at hy
        obtain ⟨rfl, rfl⟩ := hy
        rw [if_neg hn1, if_pos hn2]
        have hlowrt : parseLowSurrogate
            ('\\' :: 'u' :: (hex4 (56320 + (c.toNat - 65536) % 1024) ++ rest)) =
            some (56320 + (c.toNat - 65536) % 1024, rest) := by
          simp only [parseLowSurrogate, parseHex4_hex4 hlo]
          simp [hc2]
        split
        · next hz =>
          rw [hlowrt] at hz
          exact absurd hz (by simp)
        · next m r₄ hz =>
          rw [hlowrt] at hz
          simp only [Option.some.injEq, Prod.mk.injEq] at hz
          obtain ⟨rfl, rfl⟩ := hz
          simp only [Nat.add_sub_cancel_left, harith, Char.ofNat_toNat]
  · have hrepr : escapeChar c = [c] := by
      simp [escapeChar, hq, hbs, h8, h9, h10, h12, h13, hesc]
    rw [hrepr, List.cons_append, List.nil_append, parseStringBody.eq_def]
    simp [hq, hbs]

theorem escList_parse (cs : List Char) (rest : List Char) :
    parseStringBody ((cs.map escapeChar).flatten ++ '"' :: rest) = some (cs, rest) := by
  induction cs with
  | nil =>
    rw [List.map_nil, List.flatten_nil, List.nil_append, parseStringBody.eq_def]
    simp
  | cons c tl ih =>
    simp only [List.map_cons, List.flatten_cons, List.append_assoc]
    rw [escapeChar_parse, ih]
    rfl

theorem parseKeyString_dumpString (s : String) (rest : List Char) :
    parseKeyString (dumpString s ++ rest) = some (s, rest) := by
  rw [dumpString]
  simp only [List.cons_append, List.append_assoc, List.nil_append]
  rw [parseKeyString.eq_def]
  simp only [reduceIte]
  rw [escList_parse]
  rfl

/-! ## Round-trip of the serializer: numbers -/

theorem decDigits_digits : ∀ n : Nat, ∀ c ∈ decDigits n, 48 ≤ c.toNat ∧ c.toNat ≤ 57 := by
  intro n
  induction n using Nat.strong_induction_on with
  | _ n ih =>
    match n with
    | 0 => intro c hc; simp [decDigits] at hc
    | m + 1 =>
      intro c hc
      rw [decDigits] at hc
      rcases List.mem_append.mp hc with h | h
      · exact ih _ (Nat.div_lt_self (by omega) (by omega)) c h
      · rw [List.mem_singleton] at h
        subst h
        have hm : (m + 1) % 10 < 10 := Nat.mod_lt _ (by omega)
        rw [toNat_ofNat_valid (Or.inl (by omega))]
        omega

theorem decDigits_ne_nil {n : Nat} (h : 0 < n) : decDigits n ≠ [] := by
  match n with
  | m + 1 =>
    rw [decDigits]
    simp

theorem parseDigitsAux_nondigit {l : List Char} (a : Nat)
    (h : ∀ c, l.head? = some c → ¬(48 ≤ c.toNat ∧ c.toNat ≤ 57)) :
    parseDigitsAux l a = (a, l) := by
  cases l with
  | nil => rfl
  | cons c rest => rw [parseDigitsAux, if_neg (h c rfl)]

theorem parseDigitsAux_decDigits :
    ∀ n : Nat, ∀ (rest : List Char) (a : Nat),
      parseDigitsAux (decDigits n ++ rest) a =
        parseDigitsAux rest (a * 10 ^ (decDigits n).length + n) := by
  intro n
  induction n using Nat.strong_induction_on with
  | _ n ih =>
    match n with
    | 0 => intro rest a; simp [decDigits]
    | m + 1 =>
      intro rest a
      rw [decDigits, List.append_assoc, List.singleton_append,
        ih ((m + 1) / 10) (Nat.div_lt_self (by omega) (by omega))]
      have hm : (m + 1) % 10 < 10 := Nat.mod_lt _ (by omega)
      have htn : (Char.ofNat (48 + (m + 1) % 10)).toNat = 48 + (m + 1) % 10 :=
        toNat_ofNat_valid (Or.inl (by omega))
      rw [parseDigitsAux, if_pos (by rw [htn]; omega)]
      have hlen : (decDigits ((m + 1) / 10) ++ [Char.ofNat (48 + (m + 1) % 10)]).length =
          (decDigits ((m + 1) / 10)).length + 1 := by simp
      rw [← decDigits] at hlen ⊢
      rw [hlen, htn]
      congr 1
      have hdm := Nat.div_add_mod (m + 1) 10
      have hpow : (10 : Nat) ^ ((decDigits ((m + 1) / 10)).length + 1) =
          10 ^ (decDigits ((m + 1) / 10)).length * 10 := pow_succ 10 _
      rw [hpow]
      have h48 : 48 + (m + 1) % 10 - 48 = (m + 1) % 10 := by omega
      rw [h48]
      set K := (10 : Nat) ^ (decDigits ((m + 1) / 10)).length with hK
      ring_nf
      omega

theorem parseDigitsAux_cons (c : Char) (l : List Char) (a : Nat) :
    parseDigitsAux (c :: l) a =
      if 48 ≤ c.toNat ∧ c.toNat ≤ 57 then parseDigitsAux l (a * 10 + (c.toNat - 48))
      else (a, c :: l) := rfl

theorem parseNat_cons (c : Char) (l : List Char) :
    parseNat (c :: l) =
      if 48 ≤ c.toNat ∧ c.toNat ≤ 57 then some (parseDigitsAux (c :: l) 0) else none := rfl

theorem parseVal_cons (c : Char) (l : List Char) :
    parseVal (c :: l) =
      if c = '"' then (parseStringBody l).map (fun p => (.str (String.mk p.1), p.2))
      else if c = '-' then (parseNat l).map (fun p => (.int (-(p.1 : Int)), p.2))
      else (parseNat (c :: l)).map (fun p => (.int (p.1 : Int), p.2)) := rfl

theorem natRepr_head_digit (n : Nat) :
    ∃ c cs, natRepr n = c :: cs ∧ 48 ≤ c.toNat ∧ c.toNat ≤ 57 := by
  rw [natRepr]
  by_cases h : n = 0
  · rw [if_pos h]
    exact ⟨'0', [], rfl, by decide⟩
  · rw [if_neg h]
    cases hd : decDigits n with
    | nil => exact absurd hd (decDigits_ne_nil (by omega))
    | cons c cs =>
      exact ⟨c, cs, rfl, decDigits_digits n c (by rw [hd]; exact List.mem_cons_self _ _)⟩

theorem parseNat_natRepr (n : Nat) {rest : List Char}
    (h : ∀ c, rest.head? = some c → ¬(48 ≤ c.toNat ∧ c.toNat ≤ 57)) :
    parseNat (natRepr n ++ rest) = some (n, rest) := by
  obtain ⟨c, cs, hrepr, hdig⟩ := natRepr_head_digit n
  rw [hrepr, List.cons_append, parseNat_cons, if_pos hdig, ← List.cons_append, ← hrepr]
  rw [natRepr]
  by_cases h0 : n = 0
  · rw [if_pos h0, List.singleton_append, parseDigitsAux_cons, if_pos (by decide)]
    rw [parseDigitsAux_nondigit _ h]
    simp [h0]
  · rw [if_neg h0, parseDigitsAux_decDigits, parseDigitsAux_nondigit _ h]
    simp

theorem parseVal_dumpVal (v : PyVal) {rest : List Char}
    (h : ∀ c, rest.head? = some c → ¬(48 ≤ c.toNat ∧ c.toNat ≤ 57)) :
    parseVal (dumpVal v ++ rest) = some (v, rest) := by
  cases v with
  | str s =>
    rw [dumpVal, dumpString]
    simp only [List.cons_append, List.append_assoc, List.nil_append]
    rw [parseVal_cons]
    simp only [reduceIte]
    rw [escList_parse]
    rfl
  | int i =>
    rw [dumpVal, intRepr]
    by_cases hneg : i < 0
    · rw [if_pos hneg, List.cons_append, parseVal_cons]
      simp only [Char.reduceEq, reduceIte]
      rw [parseNat_natRepr _ h]
      have hi : (-(i.natAbs : Int)) = i := by omega
      simp only [Option.map, hi]
    · rw [if_neg hneg]
      obtain ⟨c, cs, hrepr, hdig⟩ := natRepr_head_digit i.natAbs
      rw [hrepr, List.cons_append, parseVal_cons]
      rw [if_neg (fun hc => by rw [hc] at hdig; exact absurd hdig (by decide)),
        if_neg (fun hc => by rw [hc] at hdig; exact absurd hdig (by decide))]
      rw [← List.cons_append, ← hrepr, parseNat_natRepr _ h]
      have hi : ((i.natAbs : Nat) : Int) = i := by omega
      simp only [Option.map, hi]

/-! ## Round-trip of the serializer: objects -/

theorem joinComma_cons_append (x : List Char) (xs : List (List Char)) :
    ∃ t, joinComma (x :: xs) = x ++ t := by
  cases xs with
  | nil => exact ⟨[], by simp [joinComma]⟩
  | cons y ys => exact ⟨',' :: ' ' :: joinComma (y :: ys), rfl⟩

theorem parseEntryList_roundtrip :
    ∀ (entries : Record) (fuel : Nat) (rest : List Char), entries ≠ [] →
      entries.length ≤ fuel →
      parseEntryList fuel
        (joinComma (entries.map (fun p => dumpString p.1 ++ ':' :: ' ' :: dumpVal p.2)) ++
          '}' :: rest) = some (entries, rest) := by
  intro entries
  induction entries with
  | nil => intro fuel rest hne _; exact absurd rfl hne
  | cons p tl ih =>
    intro fuel rest _ hlen
    obtain ⟨k, v⟩ := p
    match fuel, hlen with
    | fuel + 1, hlen =>
      cases tl with
      | nil =>
        rw [List.map_cons, List.map_nil, joinComma]
        simp only [List.append_assoc, List.cons_append]
        simp only [parseEntryList, parseKeyString_dumpString]
        rw [parseVal_dumpVal v (by intro c hc; simp at hc; subst hc; decide)]
        rfl
      | cons q tl2 =>
        rw [List.map_cons, List.map_cons, joinComma]
        simp only [List.append_assoc, List.cons_append]
        simp only [parseEntryList, parseKeyString_dumpString]
        rw [parseVal_dumpVal v (by intro c hc; simp at hc; subst hc; decide)]
        have ihh := ih fuel rest (by simp) (by simp at hlen ⊢; omega)
        rw [List.map_cons] at ihh
        simp [ihh]

theorem parseRecord_cons (fuel : Nat) (d : Char) (l : List Char) :
    parseRecord fuel ('{' :: d :: l) =
      if d = '}' then some ([], l) else parseEntryList fuel (d :: l) := rfl

theorem parseRecord_dumpRecord (r : Record) (fuel : Nat) (rest : List Char)
    (hlen : r.length ≤ fuel) :
    parseRecord fuel (dumpRecord r ++ rest) = some (r, rest) := by
  cases r with
  | nil =>
    rw [dumpRecord]
    simp only [List.map_nil, joinComma, List.nil_append, List.cons_append]
    rw [parseRecord_cons, if_pos rfl]
  | cons p tl =>
    rw [dumpRecord]
    have hshape : ('{' :: joinComma
          ((p :: tl).map (fun q => dumpString q.1 ++ ':' :: ' ' :: dumpVal q.2)) ++ ['}']) ++
          rest =
        '{' :: (joinComma
          ((p :: tl).map (fun q => dumpString q.1 ++ ':' :: ' ' :: dumpVal q.2)) ++
          '}' :: rest) := by simp
    rw [hshape]
    obtain ⟨t, ht⟩ := joinComma_cons_append
      (dumpString p.1 ++ ':' :: ' ' :: dumpVal p.2)
      (tl.map (fun q => dumpString q.1 ++ ':' :: ' ' :: dumpVal q.2))
    have hZ : joinComma
        ((p :: tl).map (fun q => dumpString q.1 ++ ':' :: ' ' :: dumpVal q.2)) ++
        '}' :: rest =
        '"' :: ((p.1.data.map escapeChar).flatten ++ ['"'] ++
          (':' :: ' ' :: dumpVal p.2 ++ t) ++ '}' :: rest) := by
      rw [List.map_cons, ht, dumpString]
      simp [List.append_assoc]
    rw [hZ, parseRecord_cons, if_neg (by decide), ← hZ]
    exact parseEntryList_roundtrip (p :: tl) fuel rest (by simp) hlen

/-- Combined fuel requirement of a stats object: one unit per top-level
entry plus one per record field. -/
def statsSize (st : RunStats) : Nat :=
  (st.map (fun q => 1 + q.2.length)).sum

theorem parseStatsEntryList_roundtrip :
    ∀ (st : RunStats) (fuel : Nat) (rest : List Char), st ≠ [] →
      statsSize st ≤ fuel →
      parseStatsEntryList fuel
        (joinComma (st.map (fun q =>
          dumpString (String.mk [q.1]) ++ ':' :: ' ' :: dumpRecord q.2)) ++
          '}' :: rest) = some (st, rest) := by
  intro st
  induction st with
  | nil => intro fuel rest hne _; exact absurd rfl hne
  | cons p tl ih =>
    intro fuel rest _ hsize
    obtain ⟨c, r⟩ := p
    have hpos : 0 < fuel := by
      have : 1 ≤ statsSize ((c, r) :: tl) := by simp [statsSize]; omega
      omega
    match fuel, hsize, hpos with
    | fuel + 1, hsize, _ =>
      have hsz : 1 + r.length + statsSize tl = statsSize ((c, r) :: tl) := by
        simp [statsSize]
      cases tl with
      | nil =>
        rw [List.map_cons, List.map_nil, joinComma]
        simp only [List.append_assoc, List.cons_append]
        simp only [parseStatsEntryList, parseKeyString_dumpString]
        rw [parseRecord_dumpRecord r fuel _ (by simp [statsSize] at hsize; omega)]
        rfl
      | cons q tl2 =>
        rw [List.map_cons, List.map_cons, joinComma]
        simp only [List.append_assoc, List.cons_append]
        simp only [parseStatsEntryList, parseKeyString_dumpString]
        rw [parseRecord_dumpRecord r fuel _ (by simp [statsSize] at hsize; omega)]
        have ihh := ih fuel rest (by simp) (by simp [statsSize] at hsize ⊢; omega)
        rw [List.map_cons] at ihh
        simp [ihh]

theorem parseStats_cons (fuel : Nat) (d : Char) (l : List Char) :
    parseStats fuel ('{' :: d :: l) =
      if d = '}' then some ([], l) else parseStatsEntryList fuel (d :: l) := rfl

theorem parseStats_dumpStats (st : RunStats) (fuel : Nat) (rest : List Char)
    (hsize : statsSize st ≤ fuel) :
    parseStats fuel (dumpStats st ++ rest) = some (st, rest) := by
  cases st with
  | nil =>
    rw [dumpStats]
    simp only [List.map_nil, joinComma, List.nil_append, List.cons_append]
    rw [parseStats_cons, if_pos rfl]
  | cons p tl =>
    rw [dumpStats]
    have hshape : ('{' :: joinComma
          ((p :: tl).map (fun q =>
            dumpString (String.mk [q.1]) ++ ':' :: ' ' :: dumpRecord q.2)) ++ ['}']) ++
          rest =
        '{' :: (joinComma
          ((p :: tl).map (fun q =>
            dumpString (String.mk [q.1]) ++ ':' :: ' ' :: dumpRecord q.2)) ++
          '}' :: rest) := by simp
    rw [hshape]
    obtain ⟨t, ht⟩ := joinComma_cons_append
      (dumpString (String.mk [p.1]) ++ ':' :: ' ' :: dumpRecord p.2)
      (tl.map (fun q => dumpString (String.mk [q.1]) ++ ':' :: ' ' :: dumpRecord q.2))
    have hZ : joinComma
        ((p :: tl).map (fun q =>
          dumpString (String.mk [q.1]) ++ ':' :: ' ' :: dumpRecord q.2)) ++
        '}' :: rest =
        '"' :: (((String.mk [p.1]).data.map escapeChar).flatten ++ ['"'] ++
          (':' :: ' ' :: dumpRecord p.2 ++ t) ++ '}' :: rest) := by
      rw [List.map_cons, ht, dumpString]
      simp [List.append_assoc]
    rw [hZ, parseStats_cons, if_neg (by decide), ← hZ]
    exact parseStatsEntryList_roundtrip (p :: tl) fuel rest (by simp) hsize

/-! ## Fuel bound and the full deserialization round-trip -/

theorem sum_map_length_le_joinComma (items : List (List Char)) :
    (items.map List.length).sum ≤ (joinComma items).length := by
  match items with
  | [] => simp [joinComma]
  | [x] => simp [joinComma]
  | x :: y :: ys =>
    have ih := sum_map_length_le_joinComma (y :: ys)
    rw [joinComma]
    simp only [List.map_cons, List.sum_cons, List.length_append, List.length_cons] at ih ⊢
    omega

theorem length_le_sum_map {α : Type} (l : List α) (f : α → Nat)
    (h : ∀ x ∈ l, 1 ≤ f x) : l.length ≤ (l.map f).sum := by
  induction l with
  | nil => simp
  | cons x tl ih =>
    simp only [List.map_cons, List.sum_cons, List.length_cons]
    have := h x (List.mem_cons_self _ _)
    have := ih (fun y hy => h y (List.mem_cons_of_mem _ hy))
    omega

theorem two_le_dumpString_length (s : String) : 2 ≤ (dumpString s).length := by
  rw [dumpString]
  simp

theorem record_length_le_dumpRecord (r : Record) : r.length ≤ (dumpRecord r).length := by
  rw [dumpRecord]
  have h1 : r.length ≤
      ((r.map (fun p => dumpString p.1 ++ ':' :: ' ' :: dumpVal p.2)).map List.length).sum := by
    rw [List.map_map]
    refine length_le_sum_map r _ (fun x _ => ?_)
    simp only [Function.comp_apply, List.length_append, List.length_cons]
    have := two_le_dumpString_length x.1
    omega
  have h2 := sum_map_length_le_joinComma
    (r.map (fun p => dumpString p.1 ++ ':' :: ' ' :: dumpVal p.2))
  simp only [List.length_append, List.length_cons]
  omega

theorem statsSize_le_dumpStats_length (st : RunStats) :
    statsSize st ≤ (dumpStats st).length := by
  rw [dumpStats, statsSize]
  have h1 : ((st.map (fun q => 1 + q.2.length)).sum : Nat) ≤
      ((st.map (fun q =>
        dumpString (String.mk [q.1]) ++ ':' :: ' ' :: dumpRecord q.2)).map List.length).sum := by
    rw [List.map_map]
    refine List.sum_le_sum (fun q _ => ?_)
    simp only [Function.comp_apply, List.length_append, List.length_cons]
    have ha := two_le_dumpString_length (String.mk [q.1])
    have hb := record_length_le_dumpRecord q.2
    omega
  have h2 := sum_map_length_le_joinComma
    (st.map (fun q => dumpString (String.mk [q.1]) ++ ':' :: ' ' :: dumpRecord q.2))
  simp only [List.length_append, List.length_cons]
  omega

theorem json_loads_dumps (st : RunStats) : json_loads (json_dumps st) = some st := by
  rw [json_loads, json_dumps]
  have hdata : (String.mk (dumpStats st)).data = dumpStats st := rfl
  rw [hdata]
  have h := parseStats_dumpStats st (dumpStats st).length []
    (statsSize_le_dumpStats_length st)
  rw [List.append_nil] at h
  rw [h]

/-! ## Round-trip of the transport codecs -/

theorem rleDecompress_cons (k y : Nat) (out : List (Nat × Nat)) :
    rleDecompress ((k, y) :: out) = List.replicate k y ++ rleDecompress out := by
  simp [rleDecompress]

theorem rleCompress_cons (x : Nat) (rest : List Nat) :
    rleCompress (x :: rest) =
      match rleCompress rest with
      | (k, y) :: out => if x = y then (k + 1, y) :: out else (1, x) :: (k, y) :: out
      | [] => [(1, x)] := rfl

theorem rleDecompress_rleCompress (l : List Nat) :
    rleDecompress (rleCompress l) = l := by
  induction l with
  | nil => rfl
  | cons x rest ih =>
    cases hc : rleCompress rest with
    | nil =>
      have hrest : rest = [] := by
        rw [← ih, hc]
        rfl
      subst hrest
      rfl
    | cons p out =>
      obtain ⟨k, y⟩ := p
      rw [hc] at ih
      rw [rleDecompress_cons] at ih
      rw [rleCompress_cons, hc]
      show rleDecompress (if x = y then (k + 1, y) :: out else (1, x) :: (k, y) :: out) =
        x :: rest
      by_cases hxy : x = y
      · subst hxy
        rw [if_pos rfl, rleDecompress_cons, List.replicate_succ, List.cons_append, ih]
      · rw [if_neg hxy, rleDecompress_cons, rleDecompress_cons]
        simp only [List.replicate_one, List.singleton_append, List.cons.injEq, true_and]
        exact ih

theorem textDecode_textEncode (s : String) : textDecode (textEncode s) = some s := by
  rw [textEncode, textDecode]
  have h : ∀ l : List Char, (l.map Char.toNat).mapM
      (fun (n : Nat) => if Nat.isValidChar n then some (Char.ofNat n) else none) =
      some l := by
    intro l
    induction l with
    | nil => rfl
    | cons c tl ih =>
      have hv : Nat.isValidChar c.toNat := c.valid
      simp only [List.map_cons, List.mapM_cons, ih, if_pos hv, Char.ofNat_toNat]
      rfl
  rw [h]
  rfl

/-! ## Claim C9 -/

/-- C9: for every run that reaches transmission, decompressing the
transmitted payload and decoding and deserializing the resulting text gives
back exactly the sanitized stats mapping — keys in the same order — that was
in hand immediately before serialization. -/
theorem C9_payload_roundtrip (rp : Char → Except ε Record) (cfg : List Char)
    (out : RunOutcome) (hrun : run rp cfg = .ok out) :
    (textDecode (rleDecompress out.payload)).bind json_loads = some out.sentStats := by
  obtain ⟨stats, -, -, hout⟩ := run_ok_stats hrun
  subst hout
  simp only [postPayload]
  rw [rleDecompress_rleCompress, textDecode_textEncode]
  exact json_loads_dumps _

/-- Witness for C9 at a concrete run: the payload of the falsy-then-truthy
behavior decodes back to the transmitted stats. -/
theorem C9_payload_roundtrip_witness :
    run oracleC2 ['m', 'c'] =
      .ok ⟨some (.int 42), [('m', []), ('c', [])], postPayload [('m', []), ('c', [])]⟩ ∧
    (textDecode (rleDecompress (postPayload [('m', []), ('c', [])]))).bind json_loads =
      some ([('m', []), ('c', [])] : RunStats) :=
  ⟨by decide,
    C9_payload_roundtrip oracleC2 ['m', 'c']
      ⟨some (.int 42), [('m', []), ('c', [])], postPayload [('m', []), ('c', [])]⟩
      (by decide)⟩

end VProf
